import Mathlib

/-!
Verification of the hOCR annotation module (`iris/hocr.py`): the geometry
extractor (`extract_bboxes`) and the suggestion annotator
(`insert_suggestions` / `extract_suggestions`), shallowly embedded over an
explicit document-tree model.  Python strings are modelled as `List Char`,
the lxml element tree as an inductive `Node`, xpath word locators as
child-index paths, and Python exceptions as an `Err` sum returned through
`Except`.
-/

/-- Python (unicode) strings, modelled as lists of characters. -/
abbrev Str := List Char

/-- Coerce a Lean string literal to the `Str` model. -/
def str (s : String) : Str := s.toList

/-- The Python exceptions the module can raise: `IndexError` from `xpath(...)[0]`
and `getchildren()[0]`, `KeyError` from `attrib['title']`, `ValueError` from
`float(...)` / `int(...)`, and `AttributeError` from calling `.groups()` on a
failed (`None`) regex match.  None of them carries a node path. -/
inductive Err where
  | indexError
  | keyError
  | valueError
  | attributeError
deriving DecidableEq, Repr

/-- lxml element: tag name, attribute list (first binding wins on lookup),
direct text content (absent text modelled as the empty string), and the list
of element children. -/
inductive Node where
  | mk : Str → List (Str × Str) → Str → List Node → Node

namespace Node

def tag : Node → Str
  | .mk t _ _ _ => t

def attrs : Node → List (Str × Str)
  | .mk _ a _ _ => a

def text : Node → Str
  | .mk _ _ x _ => x

def children : Node → List Node
  | .mk _ _ _ cs => cs

end Node

/-- First-match attribute lookup, modelling `element.attrib[key]` (`none` is a
`KeyError` at the call site). -/
def lookupAttr (key : Str) : List (Str × Str) → Option Str
  | [] => none
  | (k, v) :: rest => if k = key then some v else lookupAttr key rest

/-- Resolve a child-index path against a tree, modelling `context.xpath(wordxpath)`
for a locator addressing a single node (`none` models an empty result list, so
the subsequent `[0]` raises `IndexError`). -/
def resolve (n : Node) : List Nat → Option Node
  | [] => some n
  | i :: p =>
    match (Node.children n).get? i with
    | some c => resolve c p
    | none => none

/-- Apply `f` to the `i`-th element of a list, if present. -/
def modifyKids (f : Node → Node) : Nat → List Node → List Node
  | _, [] => []
  | 0, c :: cs => f c :: cs
  | i + 1, c :: cs => c :: modifyKids f i cs

/-- Replace the node at `path` by `f` of it (identity when the path dangles);
the functional image of lxml's in-place mutation of the resolved element. -/
def modifyAt (f : Node → Node) : Node → List Nat → Node
  | n, [] => f n
  | n, i :: p =>
    Node.mk (Node.tag n) (Node.attrs n) (Node.text n)
      (modifyKids (fun c => modifyAt f c p) i (Node.children n))

/-- Characters stripped by sanitization: whitespace and C0 control characters. -/
def strippable (c : Char) : Bool := c.toNat ≤ 32

/-- Modelled from the spec: `algorithms.sanitize` (the `algorithms` module is
not under `src/`).  Per the glossary, sanitization removes leading and trailing
whitespace and control characters from the text. -/
def sanitize (s : Str) : Str :=
  ((s.dropWhile strippable).reverse.dropWhile strippable).reverse

/-- A decimal digit character for `d < 10` (clamped at `'9'` above). -/
def dChar : Nat → Char
  | 0 => '0' | 1 => '1' | 2 => '2' | 3 => '3' | 4 => '4'
  | 5 => '5' | 6 => '6' | 7 => '7' | 8 => '8' | _ => '9'

/-- Numeric value of a digit character (as `int()` computes it). -/
def dVal (c : Char) : Nat := c.toNat - 48

/-- Decimal rendering worker, structurally recursive on a fuel bound (any
`fuel ≥ n` yields the canonical rendering). -/
def natToStrAux (fuel : Nat) (n : Nat) : Str :=
  match fuel with
  | 0 => [dChar n]
  | fuel + 1 =>
    if n < 10 then [dChar n]
    else natToStrAux fuel (n / 10) ++ [dChar (n % 10)]

/-- Canonical decimal rendering of a natural number. -/
def natToStr (n : Nat) : Str := natToStrAux n n

/-- Accumulate the value of a digit string. -/
def digitsVal (s : Str) : Nat := s.foldl (fun a c => 10 * a + dVal c) 0

/-- Modelled from the spec: Python's `int()` on a digit string (external
builtin used by `extract_bboxes`); `none` models the `ValueError` raised on a
non-numeric string. -/
def pyInt (s : Str) : Option Nat :=
  if s ≠ [] ∧ s.all Char.isDigit then some (digitsVal s) else none

/-- Canonical decimal rendering of an integer. -/
def intToStr (i : Int) : Str :=
  if i < 0 then '-' :: natToStr i.natAbs else natToStr i.natAbs

/-- Parse an optionally-signed digit string as an integer. -/
def intOfStr (s : Str) : Option Int :=
  match s with
  | [] => none
  | c :: rest =>
    if c = '-' then (pyInt rest).map (fun n : Nat => -(n : Int))
    else (pyInt (c :: rest)).map (fun n : Nat => (n : Int))

/-- Split on every occurrence of a separator character, keeping empty pieces,
modelling Python's `split(sep)` for a one-character separator. -/
def splitOnChar (sep : Char) : Str → List Str
  | [] => [[]]
  | c :: rest =>
    if c = sep then [] :: splitOnChar sep rest
    else
      match splitOnChar sep rest with
      | h :: t => (c :: h) :: t
      | [] => [[c]]

/-- Modelled from the spec: the string form of a suggestion score.  Scores are
modelled as exact rationals (the spec's "floating-point number" with exact
round-trip standing in for equality within standard floating-point tolerance);
the external `unicode()` conversion is modelled as the canonical
`numerator/denominator` rendering. -/
def scoreToStr (q : ℚ) : Str := intToStr q.num ++ '/' :: natToStr q.den

/-- Modelled from the spec: Python's `float()` (external builtin), the partial
inverse of `scoreToStr`; `none` models the `ValueError` raised on a
non-numeric string. -/
def pyFloat (s : Str) : Option ℚ :=
  match splitOnChar '/' s with
  | [a, b] =>
    match intOfStr a, pyInt b with
    | some n, some d => if d = 0 then none else some (mkRat n d)
    | _, _ => none
  | _ => none

instance {ε α : Type} [DecidableEq ε] [DecidableEq α] : DecidableEq (Except ε α) :=
  fun a b =>
    match a, b with
    | .ok x, .ok y =>
      if h : x = y then .isTrue (by rw [h])
      else .isFalse (fun hc => h (by cases hc; rfl))
    | .error x, .error y =>
      if h : x = y then .isTrue (by rw [h])
      else .isFalse (fun hc => h (by cases hc; rfl))
    | .ok _, .error _ => .isFalse (fun hc => Except.noConfusion hc)
    | .error _, .ok _ => .isFalse (fun hc => Except.noConfusion hc)

/-- Error-propagating map, modelling a Python loop / comprehension in which the
body may raise: the first raise aborts the whole call. -/
def mapE (f : α → Except Err β) : List α → Except Err (List β)
  | [] => .ok []
  | a :: rest =>
    match f a with
    | .error e => .error e
    | .ok b =>
      match mapE f rest with
      | .error e => .error e
      | .ok bs => .ok (b :: bs)

/-- All-or-nothing map in `Option`, modelling `map(int, ...)` where `int` may
raise `ValueError`. -/
def mapOpt (f : α → Option β) : List α → Option (List β)
  | [] => some []
  | a :: rest =>
    match f a with
    | none => none
    | some b =>
      match mapOpt f rest with
      | none => none
      | some bs => some (b :: bs)

/-- The fresh, initially empty alternatives container created by the
Plain → Annotated transition: a span element whose class attribute is
"alternatives", built by the source with etree.Element. -/
def emptyAlternatives : Node :=
  Node.mk (str "span") [(str "class", str "alternatives")] [] []

/-- One candidate node for a suggestion: an ins element of class "alt" whose
title attribute is the fixed marker "nlp " followed by the string form of the
score, and whose text is the suggestion text verbatim. -/
def mkIns (s : Str × ℚ) : Node :=
  Node.mk (str "ins")
    [(str "class", str "alt"), (str "title", str "nlp " ++ scoreToStr s.2)]
    s.1 []

/-- Appending a child to an element, as the append method does. -/
def appendChild (p c : Node) : Node :=
  Node.mk (Node.tag p) (Node.attrs p) (Node.text p) (Node.children p ++ [c])

/-- The `for s in suggestions: ... suggestion_span.append(ins)` loop, acting on
the container element. -/
def appendAll (c : Node) (suggestions : List (Str × ℚ)) : Node :=
  suggestions.foldl (fun sp s => appendChild sp (mkIns s)) c

/-- The word-node update of the Plain branch of `insert_suggestions`: clear
the direct text, append a fresh alternatives container, and append all the
candidate nodes to that container. -/
def plainInsert (suggestions : List (Str × ℚ)) (we : Node) : Node :=
  Node.mk (Node.tag we) (Node.attrs we) []
    (Node.children we ++ [appendAll emptyAlternatives suggestions])

/-- The word-node update of the Annotated branch of `insert_suggestions`:
reuse the first child (`getchildren()[0]`) as the container and append all the
candidate nodes to it. -/
def annotatedInsert (suggestions : List (Str × ℚ)) (we : Node) : Node :=
  match Node.children we with
  | [] => we
  | c :: rest =>
    Node.mk (Node.tag we) (Node.attrs we) (Node.text we)
      (appendAll c suggestions :: rest)

/-- Embedding of `insert_suggestions(con, wordxpath, suggestions)`
(src/iris/hocr.py lines 79-104).  `con.xpath(wordxpath)[0]` raises `IndexError`
when the path resolves to nothing; if the word's sanitized text is non-empty
the text is cleared and a fresh alternatives container is appended, otherwise
the first child is reused (`getchildren()[0]`, `IndexError` when childless);
the loop then appends one `ins` per suggestion to that container. -/
def insert_suggestions (con : Node) (wordxpath : List Nat)
    (suggestions : List (Str × ℚ)) : Except Err Node :=
  match resolve con wordxpath with
  | none => .error .indexError
  | some w =>
    if sanitize (Node.text w) ≠ [] then
      .ok (modifyAt (plainInsert suggestions) con wordxpath)
    else
      match Node.children w with
      | [] => .error .indexError
      | _ :: _ => .ok (modifyAt (annotatedInsert suggestions) con wordxpath)

/-- Embedding of `insert_suggestion(con, wordxpath, suggestion, nlpnum)`
(src/iris/hocr.py lines 106-108), the single-item convenience form. -/
def insert_suggestion (con : Node) (wordxpath : List Nat) (suggestion : Str)
    (nlpnum : ℚ) : Except Err Node :=
  insert_suggestions con wordxpath [(suggestion, nlpnum)]

/-- One candidate of the comprehension in `extract_suggestions`:
`(algorithms.sanitize(tag.text), float(tag.attrib[u'title'][4:]))`. -/
def parseCand (tag : Node) : Except Err (Str × ℚ) :=
  match lookupAttr (str "title") (Node.attrs tag) with
  | none => .error .keyError
  | some title =>
    match pyFloat (title.drop 4) with
    | none => .error .valueError
    | some q => .ok (sanitize (Node.text tag), q)

/-- Embedding of `extract_suggestions(context, wordxpath)`
(src/iris/hocr.py lines 69-77): resolve the word, take
`getchildren()[0].getchildren()` as the candidate nodes, and parse each. -/
def extract_suggestions (context : Node) (wordxpath : List Nat) :
    Except Err (List (Str × ℚ)) :=
  match resolve context wordxpath with
  | none => .error .indexError
  | some w =>
    match Node.children w with
    | [] => .error .indexError
    | c :: _ => mapE parseCand (Node.children c)

/-- One `[0-9]+` run of the bbox pattern: the maximal leading digit run, which
must be non-empty; returns the run and the remainder. -/
def parseRun (rest : Str) : Option (Str × Str) :=
  if rest.takeWhile Char.isDigit = [] then none
  else some (rest.takeWhile Char.isDigit, rest.dropWhile Char.isDigit)

/-- A literal single space followed by a `[0-9]+` run. -/
def parseSpaceRun (s : Str) : Option (Str × Str) :=
  match s with
  | ' ' :: s2 => parseRun s2
  | _ => none

/-- The `[0-9]+ [0-9]+ [0-9]+ [0-9]+` tail of the bbox pattern: four digit runs
separated by single spaces, returning the matched text. -/
def parseRuns4 (s : Str) : Option Str :=
  (parseRun s).bind (fun p1 =>
    (parseSpaceRun p1.2).bind (fun p2 =>
      (parseSpaceRun p2.2).bind (fun p3 =>
        (parseSpaceRun p3.2).map (fun p4 =>
          p1.1 ++ ' ' :: p2.1 ++ ' ' :: p3.1 ++ ' ' :: p4.1))))

/-- Attempt of the group `(bbox{1} [0-9]+ [0-9]+ [0-9]+ [0-9]+)` at the start
of `s`; on success returns the full matched group text. -/
def groupAt (s : Str) : Option Str :=
  if s.take 5 = str "bbox " then
    (parseRuns4 (s.drop 5)).map (fun runs => str "bbox " ++ runs)
  else none

/-- The group produced at the latest start position where it matches: the
greedy leading `.*` of `r'.*(bbox{1} [0-9]+ [0-9]+ [0-9]+ [0-9]+)'` consumes
as much as possible, so the group is taken at the last viable position. -/
def bboxLastMatch : Str → Option Str
  | [] => none
  | c :: rest =>
    match bboxLastMatch rest with
    | some g => some g
    | none => groupAt (c :: rest)

/-- The group of the regex match against the title, as an `Option`: since the
dot of the pattern does not match a newline, the group must start within the
portion of the title before the first newline (the group itself contains no
newline). -/
def pyReMatchBBox (s : Str) : Option Str :=
  bboxLastMatch (s.takeWhile (fun c => c ≠ '\n'))

/-- Extraction of one node's bbox: look up the title attribute, run the regex
match, then take the group, drop the 5-character marker, split on spaces and
convert each piece with the integer parser; a failed match means the match
object is None and the groups call raises `AttributeError`.  The Python result
tuple has whatever arity the split produced, so it is modelled as a list. -/
def extractNodeBBox (e : Node) : Except Err (List Nat) :=
  match lookupAttr (str "title") (Node.attrs e) with
  | none => .error .keyError
  | some title =>
    match pyReMatchBBox title with
    | none => .error .attributeError
    | some g =>
      match mapOpt pyInt (splitOnChar ' ' (g.drop 5)) with
      | none => .error .valueError
      | some ns => .ok ns

/-- The xpath selectors the module uses (`ALL_BBOXES`, `PAGES`, `LINES`,
`WORDS`, `XWORDS`): either every element with a `title` attribute, or every
element of a given class that also has a `title` attribute. -/
inductive Sel where
  | allWithTitle
  | byClass (cls : Str)
deriving DecidableEq, Repr

/-- Whether a node is matched by a selector. -/
def matchNode (sel : Sel) (n : Node) : Bool :=
  match sel with
  | .allWithTitle => (lookupAttr (str "title") (Node.attrs n)).isSome
  | .byClass c =>
    decide (lookupAttr (str "class") (Node.attrs n) = some c) &&
      (lookupAttr (str "title") (Node.attrs n)).isSome

mutual

/-- Document order of the elements of a tree (the order `//*`-style xpath
queries return matched nodes in). -/
def preorder : Node → List Node
  | .mk t a x cs => Node.mk t a x cs :: preorderList cs

def preorderList : List Node → List Node
  | [] => []
  | c :: cs => preorder c ++ preorderList cs

end

/-- The xpath query against the document: the matched nodes in document
order. -/
def xpathAll (con : Node) (sel : Sel) : List Node :=
  (preorder con).filter (matchNode sel)

/-- The body of the selector loop of `extract_bboxes`: the bboxes of all nodes
matched by one selector, in document order, paired with the selector (one
`results[xpath] = bboxes` entry). -/
def selBBoxes (hocr : Node) (x : Sel) : Except Err (Sel × List (List Nat)) :=
  match mapE extractNodeBBox (xpathAll hocr x) with
  | .error e => .error e
  | .ok bs => .ok (x, bs)

/-- Embedding of `extract_bboxes(hocr_file, xpaths)` (src/iris/hocr.py lines
110-127): for each selector in order, collect the bbox of every matched node
in document order; the result dictionary is modelled as the association list
built in selector order. -/
def extract_bboxes (hocr : Node) (xpaths : List Sel) :
    Except Err (List (Sel × List (List Nat))) :=
  mapE (selBBoxes hocr) xpaths

/-- Whether a string does not start with a digit (so a preceding maximal digit
run cannot be extended into it). -/
def headNotDigit : Str → Bool
  | [] => true
  | c :: _ => !c.isDigit

/-- Four single-space-separated digit runs, the tail of a bbox token. -/
def bboxRuns (d1 d2 d3 d4 : Str) : Str :=
  d1 ++ (' ' :: (d2 ++ (' ' :: (d3 ++ (' ' :: d4)))))

/-- A conforming bbox token: the literal marker `bbox` followed by four
single-space-separated digit runs. -/
def bboxTok (d1 d2 d3 d4 : Str) : Str :=
  str "bbox " ++ bboxRuns d1 d2 d3 d4

/-! ### Lemmas: decimal rendering and parsing round trip -/

theorem isDigit_dChar (d : Nat) : (dChar d).isDigit = true := by
  unfold dChar; split <;> decide

theorem dVal_dChar {d : Nat} (h : d < 10) : dVal (dChar d) = d := by
  interval_cases d <;> decide

theorem digitsVal_append (xs : Str) (c : Char) :
    digitsVal (xs ++ [c]) = 10 * digitsVal xs + dVal c := by
  unfold digitsVal
  rw [List.foldl_append]
  rfl

theorem natToStrAux_all_digit (fuel n : Nat) :
    (natToStrAux fuel n).all Char.isDigit = true := by
  induction fuel generalizing n with
  | zero => simp [natToStrAux, isDigit_dChar]
  | succ fuel ih =>
    unfold natToStrAux
    split
    · simp [isDigit_dChar]
    · simp [List.all_append, ih, isDigit_dChar]

theorem natToStrAux_ne_nil (fuel n : Nat) : natToStrAux fuel n ≠ [] := by
  cases fuel with
  | zero => simp [natToStrAux]
  | succ fuel =>
    unfold natToStrAux
    split <;> simp

theorem digitsVal_natToStrAux {fuel n : Nat} (h : n ≤ fuel) :
    digitsVal (natToStrAux fuel n) = n := by
  induction fuel generalizing n with
  | zero =>
    have : n = 0 := by omega
    subst this
    decide
  | succ fuel ih =>
    unfold natToStrAux
    split
    · next h10 =>
      show digitsVal [dChar n] = n
      unfold digitsVal
      simp [List.foldl, dVal_dChar h10]
    · next h10 =>
      have hlt : n / 10 < n := Nat.div_lt_self (by omega) (by omega)
      rw [digitsVal_append, ih (by omega), dVal_dChar (Nat.mod_lt _ (by omega))]
      omega

theorem pyInt_natToStr (n : Nat) : pyInt (natToStr n) = some n := by
  unfold pyInt natToStr
  rw [if_pos ⟨natToStrAux_ne_nil n n, natToStrAux_all_digit n n⟩,
    digitsVal_natToStrAux (Nat.le_refl n)]

theorem mem_natToStr_isDigit {c : Char} {n : Nat} (h : c ∈ natToStr n) :
    c.isDigit = true := by
  have hall := natToStrAux_all_digit n n
  rw [List.all_eq_true] at hall
  exact hall c h

theorem natToStr_ne_nil (n : Nat) : natToStr n ≠ [] := natToStrAux_ne_nil n n

theorem intOfStr_intToStr (i : Int) : intOfStr (intToStr i) = some i := by
  unfold intToStr
  by_cases hi : i < 0
  · rw [if_pos hi, intOfStr, if_pos rfl, pyInt_natToStr]
    simp only [Option.map_some', Option.some.injEq]
    omega
  · rw [if_neg hi]
    cases hs : natToStr i.natAbs with
    | nil => exact absurd hs (natToStr_ne_nil _)
    | cons c cs =>
      have hc : c.isDigit = true :=
        mem_natToStr_isDigit (n := i.natAbs) (by rw [hs]; exact List.mem_cons_self c cs)
      have hcm : c ≠ '-' := by rintro rfl; exact absurd hc (by decide)
      rw [intOfStr, if_neg hcm, ← hs, pyInt_natToStr]
      simp only [Option.map_some', Option.some.injEq]
      omega

theorem splitOnChar_not_mem {sep : Char} : ∀ {s : Str}, sep ∉ s →
    splitOnChar sep s = [s] := by
  intro s
  induction s with
  | nil => intro _; rfl
  | cons c rest ih =>
    intro h
    have hc : c ≠ sep := fun hcs => h (hcs ▸ List.mem_cons_self c rest)
    rw [splitOnChar, if_neg hc, ih (fun hm => h (List.mem_cons_of_mem c hm))]

theorem splitOnChar_append {sep : Char} (B : Str) : ∀ {A : Str}, sep ∉ A →
    splitOnChar sep (A ++ sep :: B) = A :: splitOnChar sep B := by
  intro A
  induction A with
  | nil => intro _; rw [List.nil_append, splitOnChar, if_pos rfl]
  | cons c rest ih =>
    intro hA
    have hc : c ≠ sep := fun h => hA (h ▸ List.mem_cons_self c rest)
    rw [List.cons_append, splitOnChar, if_neg hc, ih (fun hm => hA (List.mem_cons_of_mem c hm))]

theorem not_slash_natToStr {n : Nat} : '/' ∉ natToStr n := by
  intro h
  exact absurd (mem_natToStr_isDigit h) (by decide)

theorem not_slash_intToStr {i : Int} : '/' ∉ intToStr i := by
  unfold intToStr
  split
  · intro h
    rcases List.mem_cons.mp h with h | h
    · exact absurd h (by decide)
    · exact not_slash_natToStr h
  · exact not_slash_natToStr

/-- The score serialization round trip: re-parsing the stored string form of a
score recovers the score exactly. -/
theorem pyFloat_scoreToStr (q : ℚ) : pyFloat (scoreToStr q) = some q := by
  unfold scoreToStr pyFloat
  rw [splitOnChar_append (natToStr q.den) not_slash_intToStr,
      splitOnChar_not_mem not_slash_natToStr]
  simp only [intOfStr_intToStr, pyInt_natToStr]
  rw [if_neg q.den_nz, Rat.mkRat_self]

/-! ### Lemmas: tree resolution and mutation -/

theorem get?_modifyKids (f : Node → Node) : ∀ (l : List Node) (i : Nat),
    (modifyKids f i l).get? i = (l.get? i).map f := by
  intro l
  induction l with
  | nil => intro i; cases i <;> rfl
  | cons c cs ih =>
    intro i
    cases i with
    | zero => rfl
    | succ j => exact ih j

theorem resolve_modifyAt (f : Node → Node) : ∀ (p : List Nat) (n : Node),
    resolve (modifyAt f n p) p = (resolve n p).map f := by
  intro p
  induction p with
  | nil => intro n; rfl
  | cons i p ih =>
    intro n
    cases n with
    | mk t a x cs =>
      simp only [modifyAt, Node.tag, Node.attrs, Node.text, Node.children]
      simp only [resolve, Node.children]
      rw [get?_modifyKids]
      cases h : cs.get? i with
      | none => rfl
      | some c =>
        simp only [Option.map_some']
        exact ih c

theorem appendAll_eq : ∀ (sugs : List (Str × ℚ)) (c : Node),
    appendAll c sugs = Node.mk (Node.tag c) (Node.attrs c) (Node.text c)
      (Node.children c ++ sugs.map mkIns) := by
  intro sugs
  induction sugs with
  | nil =>
    intro c
    cases c
    simp [appendAll, Node.tag, Node.attrs, Node.text, Node.children]
  | cons s rest ih =>
    intro c
    show appendAll (appendChild c (mkIns s)) rest = _
    rw [ih]
    cases c
    simp [appendChild, Node.tag, Node.attrs, Node.text, Node.children]

theorem drop4_nlp (x : Str) : (str "nlp " ++ x).drop 4 = x := rfl

theorem lookupAttr_mkIns (s : Str × ℚ) :
    lookupAttr (str "title") (Node.attrs (mkIns s)) =
      some (str "nlp " ++ scoreToStr s.2) := rfl

theorem text_mkIns (s : Str × ℚ) : Node.text (mkIns s) = s.1 := rfl

theorem parseCand_mkIns {s : Str × ℚ} (hs : sanitize s.1 = s.1) :
    parseCand (mkIns s) = .ok s := by
  unfold parseCand
  simp only [lookupAttr_mkIns, drop4_nlp, pyFloat_scoreToStr, text_mkIns, hs]

theorem mapE_eq_map {f : α → Except Err β} {g : α → β} : ∀ {l : List α},
    (∀ a ∈ l, f a = .ok (g a)) → mapE f l = .ok (l.map g) := by
  intro l
  induction l with
  | nil => intro _; rfl
  | cons a rest ih =>
    intro h
    rw [mapE, h a (List.mem_cons_self a rest),
      ih (fun x hx => h x (List.mem_cons_of_mem a hx)), List.map_cons]

theorem mapE_parseCand_mkIns : ∀ {sugs : List (Str × ℚ)},
    (∀ s ∈ sugs, sanitize s.1 = s.1) →
    mapE parseCand (sugs.map mkIns) = .ok sugs := by
  intro sugs
  induction sugs with
  | nil => intro _; rfl
  | cons s rest ih =>
    intro h
    rw [List.map_cons, mapE, parseCand_mkIns (h s (List.mem_cons_self s rest)),
      ih (fun x hx => h x (List.mem_cons_of_mem s hx))]

/-! ### Lemmas: the branches of the annotator operations -/

theorem insert_suggestions_plain {con : Node} {p : List Nat} {w : Node}
    (hr : resolve con p = some w) (ht : sanitize (Node.text w) ≠ [])
    (sugs : List (Str × ℚ)) :
    insert_suggestions con p sugs = .ok (modifyAt (plainInsert sugs) con p) := by
  unfold insert_suggestions
  simp only [hr]
  rw [if_pos ht]

theorem insert_suggestions_annotated {con : Node} {p : List Nat} {w : Node}
    (hr : resolve con p = some w) (ht : sanitize (Node.text w) = [])
    {c : Node} {rest : List Node} (hch : Node.children w = c :: rest)
    (sugs : List (Str × ℚ)) :
    insert_suggestions con p sugs = .ok (modifyAt (annotatedInsert sugs) con p) := by
  unfold insert_suggestions
  simp only [hr]
  rw [if_neg (fun hne => hne ht)]
  simp only [hch]

theorem extract_suggestions_eq {con : Node} {p : List Nat} {w : Node}
    (hr : resolve con p = some w) {c : Node} {rest : List Node}
    (hch : Node.children w = c :: rest) :
    extract_suggestions con p = mapE parseCand (Node.children c) := by
  unfold extract_suggestions
  simp only [hr, hch]

theorem extract_suggestions_childless {con : Node} {p : List Nat} {w : Node}
    (hr : resolve con p = some w) (hch : Node.children w = []) :
    extract_suggestions con p = .error .indexError := by
  unfold extract_suggestions
  simp only [hr, hch]

/-! ### Concrete example trees -/

/-- A Plain hOCR word: direct text `"cot"`, no children. -/
def wordCot : Node := Node.mk (str "span") [(str "class", str "ocrx_word")] (str "cot") []

/-- A first child that is not an alternatives container (wrong tag and class),
holding one candidate-shaped child. -/
def oddContainer : Node :=
  Node.mk (str "div") [(str "class", str "not-alternatives")] []
    [mkIns (str "cat", mkRat 9 10)]

/-- A word with empty text whose only child is `oddContainer`. -/
def wordOdd : Node := Node.mk (str "span") [] [] [oddContainer]

/-! ### Claim C1 -/

/-- C1 (amended): on a Plain word (non-empty sanitized text, no children),
inserting a suggestion list whose texts are invariant under sanitization and
then extracting on the same path returns exactly that list — texts in order and
each score recovered equal to the one inserted — and the word's direct text is
empty afterwards.  (As literally stated the claim fails for texts changed by
the extraction-side sanitization; see the counterexample.) -/
theorem insert_then_extract_roundtrip (con : Node) (p : List Nat) (w : Node)
    (sugs : List (Str × ℚ)) (hr : resolve con p = some w)
    (hch : Node.children w = []) (ht : sanitize (Node.text w) ≠ [])
    (hsan : ∀ s ∈ sugs, sanitize s.1 = s.1) :
    ∃ t, insert_suggestions con p sugs = .ok t ∧
      extract_suggestions t p = .ok sugs ∧
      ∃ w', resolve t p = some w' ∧ Node.text w' = [] := by
  have hres : resolve (modifyAt (plainInsert sugs) con p) p = some (plainInsert sugs w) := by
    rw [resolve_modifyAt, hr, Option.map_some']
  have hch' : Node.children (plainInsert sugs w) = appendAll emptyAlternatives sugs :: [] := by
    unfold plainInsert
    rw [hch]
    rfl
  refine ⟨modifyAt (plainInsert sugs) con p, insert_suggestions_plain hr ht sugs, ?_,
    plainInsert sugs w, hres, rfl⟩
  rw [extract_suggestions_eq hres hch', appendAll_eq]
  have hkids : Node.children (Node.mk (Node.tag emptyAlternatives)
      (Node.attrs emptyAlternatives) (Node.text emptyAlternatives)
      (Node.children emptyAlternatives ++ sugs.map mkIns)) = sugs.map mkIns := by
    simp [emptyAlternatives, Node.children]
  rw [hkids]
  exact mapE_parseCand_mkIns hsan

/-- C1 witness: the round trip at the word "cot" with suggestions
`("cat", 9/10)` and `("car", 2/5)`. -/
theorem insert_then_extract_roundtrip_witness :
    (resolve wordCot [] = some wordCot ∧ Node.children wordCot = [] ∧
      sanitize (Node.text wordCot) ≠ [] ∧
      (∀ s ∈ [(str "cat", mkRat 9 10), (str "car", mkRat 2 5)], sanitize s.1 = s.1)) ∧
    (∃ t, insert_suggestions wordCot [] [(str "cat", mkRat 9 10), (str "car", mkRat 2 5)] = .ok t ∧
      extract_suggestions t [] = .ok [(str "cat", mkRat 9 10), (str "car", mkRat 2 5)] ∧
      ∃ w', resolve t [] = some w' ∧ Node.text w' = []) :=
  ⟨⟨rfl, rfl, by decide, by decide⟩,
    insert_then_extract_roundtrip wordCot [] wordCot
      [(str "cat", mkRat 9 10), (str "car", mkRat 2 5)] rfl rfl (by decide) (by decide)⟩

/-- C1 counterexample: the claim as stated is false for a suggestion text that
sanitization changes: inserting `("  cat\n", 9/10)` and re-extracting yields
`("cat", 9/10)`, not the inserted pair (extraction sanitizes candidate text). -/
theorem roundtrip_fails_on_unsanitized_text :
    (insert_suggestions wordCot [] [(str "  cat\n", mkRat 9 10)]).map
        (fun t => extract_suggestions t []) =
      Except.ok (Except.ok [(str "cat", mkRat 9 10)]) ∧
    str "cat" ≠ str "  cat\n" := by
  constructor
  · decide
  · decide

/-! ### Claim C2 -/

/-- C2: `insert_suggestions` is atomic.  The call either fails — with
`IndexError`, exactly when the path does not resolve or when the resolved
node has empty sanitized text and no child to reuse, both checked before any
mutation, so the input tree is returned to the caller untouched — or succeeds
with the shape transition (when needed) and every requested candidate
appended: no partial candidate list is ever produced. -/
theorem insert_suggestions_atomic (con : Node) (p : List Nat) (sugs : List (Str × ℚ)) :
    (insert_suggestions con p sugs = .error Err.indexError ∧
      (resolve con p = none ∨
        ∃ w, resolve con p = some w ∧ sanitize (Node.text w) = [] ∧ Node.children w = [])) ∨
    (∃ t w, insert_suggestions con p sugs = .ok t ∧ resolve con p = some w ∧
      ((sanitize (Node.text w) ≠ [] ∧
        resolve t p = some (Node.mk (Node.tag w) (Node.attrs w) []
          (Node.children w ++ [Node.mk (str "span") [(str "class", str "alternatives")] []
            (sugs.map mkIns)]))) ∨
       (sanitize (Node.text w) = [] ∧ ∃ c rest, Node.children w = c :: rest ∧
        resolve t p = some (Node.mk (Node.tag w) (Node.attrs w) (Node.text w)
          (Node.mk (Node.tag c) (Node.attrs c) (Node.text c)
            (Node.children c ++ sugs.map mkIns) :: rest))))) := by
  cases hr : resolve con p with
  | none =>
    left
    constructor
    · unfold insert_suggestions
      simp only [hr]
    · exact Or.inl rfl
  | some w =>
    by_cases ht : sanitize (Node.text w) = []
    · cases hch : Node.children w with
      | nil =>
        left
        refine ⟨?_, Or.inr ⟨w, rfl, ht, hch⟩⟩
        unfold insert_suggestions
        simp only [hr]
        rw [if_neg (fun hne => hne ht)]
        simp only [hch]
      | cons c rest =>
        right
        refine ⟨modifyAt (annotatedInsert sugs) con p, w,
          insert_suggestions_annotated hr ht hch sugs, rfl,
          Or.inr ⟨ht, c, rest, hch, ?_⟩⟩
        rw [resolve_modifyAt, hr, Option.map_some']
        unfold annotatedInsert
        rw [hch]
        simp only [appendAll_eq]
    · right
      refine ⟨modifyAt (plainInsert sugs) con p, w,
        insert_suggestions_plain hr ht sugs, rfl, Or.inl ⟨ht, ?_⟩⟩
      rw [resolve_modifyAt, hr, Option.map_some']
      unfold plainInsert
      rw [appendAll_eq]
      rfl

/-! ### Claim C4 -/

/-- C4: two sequential `insert_suggestions` calls with non-empty suggestion
lists on an originally Plain word leave exactly one alternatives container
child under the word, holding all candidates of both calls, in call order and
then suggestion-list order within each call. -/
theorem insert_twice_one_container (con : Node) (p : List Nat) (w : Node)
    (s1 s2 : List (Str × ℚ)) (hr : resolve con p = some w)
    (hch : Node.children w = []) (ht : sanitize (Node.text w) ≠ [])
    (h1 : s1 ≠ []) (h2 : s2 ≠ []) :
    ∃ t1 t2, insert_suggestions con p s1 = .ok t1 ∧
      insert_suggestions t1 p s2 = .ok t2 ∧
      ∃ w2, resolve t2 p = some w2 ∧
        Node.children w2 =
          [Node.mk (str "span") [(str "class", str "alternatives")] []
            ((s1 ++ s2).map mkIns)] := by
  have hres1 : resolve (modifyAt (plainInsert s1) con p) p = some (plainInsert s1 w) := by
    rw [resolve_modifyAt, hr, Option.map_some']
  have htext1 : sanitize (Node.text (plainInsert s1 w)) = [] := rfl
  have hch1 : Node.children (plainInsert s1 w) = appendAll emptyAlternatives s1 :: [] := by
    unfold plainInsert
    rw [hch]
    rfl
  refine ⟨_, _, insert_suggestions_plain hr ht s1,
    insert_suggestions_annotated hres1 htext1 hch1 s2, ?_⟩
  have hres2 : resolve (modifyAt (annotatedInsert s2) (modifyAt (plainInsert s1) con p) p) p
      = some (annotatedInsert s2 (plainInsert s1 w)) := by
    rw [resolve_modifyAt, hres1, Option.map_some']
  refine ⟨_, hres2, ?_⟩
  unfold annotatedInsert
  rw [hch1]
  simp only [appendAll_eq]
  simp [emptyAlternatives, Node.tag, Node.attrs, Node.text, Node.children]

/-- C4 witness: two single-suggestion calls on the word "cot". -/
theorem insert_twice_one_container_witness :
    (resolve wordCot [] = some wordCot ∧ Node.children wordCot = [] ∧
      sanitize (Node.text wordCot) ≠ [] ∧
      ([(str "cat", mkRat 9 10)] : List (Str × ℚ)) ≠ [] ∧
      ([(str "car", mkRat 2 5)] : List (Str × ℚ)) ≠ []) ∧
    (∃ t1 t2, insert_suggestions wordCot [] [(str "cat", mkRat 9 10)] = .ok t1 ∧
      insert_suggestions t1 [] [(str "car", mkRat 2 5)] = .ok t2 ∧
      ∃ w2, resolve t2 [] = some w2 ∧
        Node.children w2 =
          [Node.mk (str "span") [(str "class", str "alternatives")] []
            (([(str "cat", mkRat 9 10)] ++ [(str "car", mkRat 2 5)]).map mkIns)]) :=
  ⟨⟨rfl, rfl, by decide, by decide, by decide⟩,
    insert_twice_one_container wordCot [] wordCot
      [(str "cat", mkRat 9 10)] [(str "car", mkRat 2 5)]
      rfl rfl (by decide) (by decide) (by decide)⟩

/-! ### Claim C6 -/

/-- C6 counterexample: calling `insert_suggestions` with an empty suggestion
list on the Plain word "cot" does perform the Plain → Annotated transition:
the direct text is cleared (it was non-empty) and an empty alternatives
container is appended, contradicting the claim that the word stays Plain. -/
theorem insert_empty_list_still_transitions :
    insert_suggestions wordCot [] [] =
      .ok (Node.mk (str "span") [(str "class", str "ocrx_word")] [] [emptyAlternatives]) ∧
    Node.text wordCot ≠ [] ∧ Node.children wordCot = [] := by
  refine ⟨rfl, ?_, rfl⟩
  decide

/-- C6 (amended): the Plain → Annotated transition is triggered by any
`insert_suggestions` call on a node with non-empty sanitized text, including a
call with an empty suggestion list: the text is cleared and an empty
alternatives container child is appended; non-emptiness of the suggestion list
plays no role in the transition. -/
theorem insert_empty_list_transitions (con : Node) (p : List Nat) (w : Node)
    (hr : resolve con p = some w) (ht : sanitize (Node.text w) ≠ []) :
    ∃ t, insert_suggestions con p [] = .ok t ∧
      resolve t p = some (Node.mk (Node.tag w) (Node.attrs w) []
        (Node.children w ++ [emptyAlternatives])) := by
  refine ⟨_, insert_suggestions_plain hr ht [], ?_⟩
  rw [resolve_modifyAt, hr, Option.map_some']
  rfl

/-- C6 witness: the amended transition behavior at the word "cot". -/
theorem insert_empty_list_transitions_witness :
    (resolve wordCot [] = some wordCot ∧ sanitize (Node.text wordCot) ≠ []) ∧
    (∃ t, insert_suggestions wordCot [] [] = .ok t ∧
      resolve t [] = some (Node.mk (Node.tag wordCot) (Node.attrs wordCot) []
        (Node.children wordCot ++ [emptyAlternatives]))) :=
  ⟨⟨rfl, by decide⟩, insert_empty_list_transitions wordCot [] wordCot rfl (by decide)⟩

/-! ### Claim C7 -/

/-- C7 counterexample: `extract_suggestions` on the Plain word "cot" fails
with a plain `IndexError` (from `getchildren()[0]` on a childless node), not
with any shape-specific error — the code defines no `InvalidShapeError`. -/
theorem extract_plain_error_is_indexerror :
    extract_suggestions wordCot [] = .error Err.indexError := rfl

/-- C7 (amended): on every word node in Plain shape (non-empty sanitized
direct text, no children) `extract_suggestions` fails with `IndexError`; it
never synthesizes suggestions from the plain text. -/
theorem extract_on_plain_raises_indexerror (con : Node) (p : List Nat) (w : Node)
    (hr : resolve con p = some w) (ht : sanitize (Node.text w) ≠ [])
    (hch : Node.children w = []) :
    extract_suggestions con p = .error Err.indexError := by
  unfold extract_suggestions
  simp only [hr, hch]

/-- C7 witness: the failure at the word "cot". -/
theorem extract_on_plain_raises_indexerror_witness :
    (resolve wordCot [] = some wordCot ∧ sanitize (Node.text wordCot) ≠ [] ∧
      Node.children wordCot = []) ∧
    extract_suggestions wordCot [] = .error Err.indexError :=
  ⟨⟨rfl, by decide, rfl⟩,
    extract_on_plain_raises_indexerror wordCot [] wordCot rfl (by decide) rfl⟩

/-! ### Claim C10 -/

/-- C10: both `extract_suggestions` and the Annotated branch of
`insert_suggestions` use the word's first child as the alternatives container
without checking its tag or class: for any node with empty sanitized text and
first child `c` — whatever `c`'s tag and attributes — extraction parses `c`'s
children as candidates, and insertion appends the new candidates to `c`. -/
theorem first_child_used_blindly (con : Node) (p : List Nat) (w c : Node)
    (rest : List Node) (sugs : List (Str × ℚ)) (hr : resolve con p = some w)
    (ht : sanitize (Node.text w) = []) (hch : Node.children w = c :: rest) :
    extract_suggestions con p = mapE parseCand (Node.children c) ∧
    ∃ t, insert_suggestions con p sugs = .ok t ∧
      resolve t p = some (Node.mk (Node.tag w) (Node.attrs w) (Node.text w)
        (Node.mk (Node.tag c) (Node.attrs c) (Node.text c)
          (Node.children c ++ sugs.map mkIns) :: rest)) := by
  refine ⟨extract_suggestions_eq hr hch, _,
    insert_suggestions_annotated hr ht hch sugs, ?_⟩
  rw [resolve_modifyAt, hr, Option.map_some']
  unfold annotatedInsert
  rw [hch]
  simp only [appendAll_eq]

/-- C10 witness: a word whose first child is a `div` of class
"not-alternatives" is still treated as the container by both operations. -/
theorem first_child_used_blindly_witness :
    (resolve wordOdd [] = some wordOdd ∧ sanitize (Node.text wordOdd) = [] ∧
      Node.children wordOdd = oddContainer :: []) ∧
    (extract_suggestions wordOdd [] = mapE parseCand (Node.children oddContainer) ∧
      ∃ t, insert_suggestions wordOdd [] [(str "dog", mkRat 1 2)] = .ok t ∧
        resolve t [] = some (Node.mk (Node.tag wordOdd) (Node.attrs wordOdd) (Node.text wordOdd)
          (Node.mk (Node.tag oddContainer) (Node.attrs oddContainer) (Node.text oddContainer)
            (Node.children oddContainer ++ [(str "dog", mkRat 1 2)].map mkIns) :: []))) :=
  ⟨⟨rfl, rfl, rfl⟩,
    first_child_used_blindly wordOdd [] wordOdd oddContainer [] [(str "dog", mkRat 1 2)]
      rfl rfl rfl⟩

/-! ### Lemmas: the bbox regular expression -/

theorem takeWhile_isDigit_headNot {B : Str} (hB : headNotDigit B = true) :
    B.takeWhile Char.isDigit = [] := by
  cases B with
  | nil => rfl
  | cons b bs =>
    have hb : ¬ b.isDigit = true := by
      unfold headNotDigit at hB
      simp only [Bool.not_eq_true'] at hB
      simp [hB]
    rw [List.takeWhile_cons_of_neg hb]

theorem dropWhile_isDigit_headNot {B : Str} (hB : headNotDigit B = true) :
    B.dropWhile Char.isDigit = B := by
  cases B with
  | nil => rfl
  | cons b bs =>
    have hb : ¬ b.isDigit = true := by
      unfold headNotDigit at hB
      simp only [Bool.not_eq_true'] at hB
      simp [hB]
    rw [List.dropWhile_cons_of_neg hb]

theorem parseRun_eq (d B : Str) (hne : d ≠ []) (hd : ∀ c ∈ d, c.isDigit = true)
    (hB : headNotDigit B = true) : parseRun (d ++ B) = some (d, B) := by
  have ht : (d ++ B).takeWhile Char.isDigit = d := by
    rw [List.takeWhile_append_of_pos hd, takeWhile_isDigit_headNot hB, List.append_nil]
  have hdr : (d ++ B).dropWhile Char.isDigit = B := by
    rw [List.dropWhile_append_of_pos hd, dropWhile_isDigit_headNot hB]
  unfold parseRun
  rw [ht, hdr, if_neg hne]

theorem parseSpaceRun_space (s : Str) : parseSpaceRun (' ' :: s) = parseRun s := rfl

theorem parseRuns4_eq (d1 d2 d3 d4 B : Str)
    (h1 : d1 ≠ []) (hd1 : ∀ c ∈ d1, c.isDigit = true)
    (h2 : d2 ≠ []) (hd2 : ∀ c ∈ d2, c.isDigit = true)
    (h3 : d3 ≠ []) (hd3 : ∀ c ∈ d3, c.isDigit = true)
    (h4 : d4 ≠ []) (hd4 : ∀ c ∈ d4, c.isDigit = true)
    (hB : headNotDigit B = true) :
    parseRuns4 (bboxRuns d1 d2 d3 d4 ++ B) = some (bboxRuns d1 d2 d3 d4) := by
  have e0 : bboxRuns d1 d2 d3 d4 ++ B
      = d1 ++ ' ' :: (d2 ++ ' ' :: (d3 ++ ' ' :: (d4 ++ B))) := by
    simp [bboxRuns, List.append_assoc]
  rw [e0]
  unfold parseRuns4
  rw [parseRun_eq d1 (' ' :: (d2 ++ ' ' :: (d3 ++ ' ' :: (d4 ++ B)))) h1 hd1 rfl]
  simp only [Option.some_bind, parseSpaceRun_space]
  rw [parseRun_eq d2 (' ' :: (d3 ++ ' ' :: (d4 ++ B))) h2 hd2 rfl]
  simp only [Option.some_bind, parseSpaceRun_space]
  rw [parseRun_eq d3 (' ' :: (d4 ++ B)) h3 hd3 rfl]
  simp only [Option.some_bind, parseSpaceRun_space]
  rw [parseRun_eq d4 B h4 hd4 hB]
  simp [bboxRuns]

theorem take5_bbox (x : Str) : (str "bbox " ++ x).take 5 = str "bbox " := rfl

theorem drop5_bbox (x : Str) : (str "bbox " ++ x).drop 5 = x := rfl

theorem groupAt_tok (d1 d2 d3 d4 B : Str)
    (h1 : d1 ≠ []) (hd1 : ∀ c ∈ d1, c.isDigit = true)
    (h2 : d2 ≠ []) (hd2 : ∀ c ∈ d2, c.isDigit = true)
    (h3 : d3 ≠ []) (hd3 : ∀ c ∈ d3, c.isDigit = true)
    (h4 : d4 ≠ []) (hd4 : ∀ c ∈ d4, c.isDigit = true)
    (hB : headNotDigit B = true) :
    groupAt (bboxTok d1 d2 d3 d4 ++ B) = some (bboxTok d1 d2 d3 d4) := by
  unfold bboxTok groupAt
  rw [List.append_assoc, take5_bbox, if_pos rfl, drop5_bbox,
    parseRuns4_eq d1 d2 d3 d4 B h1 hd1 h2 hd2 h3 hd3 h4 hd4 hB]
  rfl

theorem groupAt_cons_ne_b {c : Char} (s : Str) (hc : c ≠ 'b') :
    groupAt (c :: s) = none := by
  unfold groupAt
  rw [if_neg]
  intro h
  have h1 : ((c :: s).take 5).head? = some c := rfl
  rw [h] at h1
  simp only [str] at h1
  exact hc (by injection h1 with h2; exact h2.symm)

theorem blm_cons (c : Char) (s : Str) :
    bboxLastMatch (c :: s) =
      match bboxLastMatch s with
      | some g => some g
      | none => groupAt (c :: s) := rfl

theorem blm_append_some {t g : Str} (h : bboxLastMatch t = some g) :
    ∀ A : Str, bboxLastMatch (A ++ t) = some g := by
  intro A
  induction A with
  | nil => simpa using h
  | cons a A ih =>
    rw [List.cons_append, blm_cons, ih]

theorem blm_append_no_b (s : Str) : ∀ {l : Str}, (∀ c ∈ l, c ≠ 'b') →
    bboxLastMatch (l ++ s) = bboxLastMatch s := by
  intro l
  induction l with
  | nil => intro _; rfl
  | cons a l ih =>
    intro hl
    have ha : a ≠ 'b' := hl a (List.mem_cons_self a l)
    rw [List.cons_append, blm_cons, ih (fun c hc => hl c (List.mem_cons_of_mem a hc))]
    cases hb : bboxLastMatch s with
    | some g => rfl
    | none => exact groupAt_cons_ne_b (l ++ s) ha

theorem mem_bboxRuns {c : Char} {d1 d2 d3 d4 : Str}
    (hd1 : ∀ x ∈ d1, x.isDigit = true) (hd2 : ∀ x ∈ d2, x.isDigit = true)
    (hd3 : ∀ x ∈ d3, x.isDigit = true) (hd4 : ∀ x ∈ d4, x.isDigit = true)
    (h : c ∈ bboxRuns d1 d2 d3 d4) : c.isDigit = true ∨ c = ' ' := by
  unfold bboxRuns at h
  rcases List.mem_append.mp h with h | h
  · exact Or.inl (hd1 c h)
  rcases List.mem_cons.mp h with h | h
  · exact Or.inr h
  rcases List.mem_append.mp h with h | h
  · exact Or.inl (hd2 c h)
  rcases List.mem_cons.mp h with h | h
  · exact Or.inr h
  rcases List.mem_append.mp h with h | h
  · exact Or.inl (hd3 c h)
  rcases List.mem_cons.mp h with h | h
  · exact Or.inr h
  exact Or.inl (hd4 c h)

theorem runs_no_b {d1 d2 d3 d4 : Str}
    (hd1 : ∀ x ∈ d1, x.isDigit = true) (hd2 : ∀ x ∈ d2, x.isDigit = true)
    (hd3 : ∀ x ∈ d3, x.isDigit = true) (hd4 : ∀ x ∈ d4, x.isDigit = true) :
    ∀ c ∈ bboxRuns d1 d2 d3 d4, c ≠ 'b' := by
  intro c hc
  rcases mem_bboxRuns hd1 hd2 hd3 hd4 hc with h | rfl
  · rintro rfl
    exact absurd h (by decide)
  · decide

theorem blm_tok (d1 d2 d3 d4 B : Str)
    (h1 : d1 ≠ []) (hd1 : ∀ c ∈ d1, c.isDigit = true)
    (h2 : d2 ≠ []) (hd2 : ∀ c ∈ d2, c.isDigit = true)
    (h3 : d3 ≠ []) (hd3 : ∀ c ∈ d3, c.isDigit = true)
    (h4 : d4 ≠ []) (hd4 : ∀ c ∈ d4, c.isDigit = true)
    (hB : headNotDigit B = true) (hBm : bboxLastMatch B = none) :
    bboxLastMatch (bboxTok d1 d2 d3 d4 ++ B) = some (bboxTok d1 d2 d3 d4) := by
  have e0 : bboxTok d1 d2 d3 d4 ++ B
      = 'b' :: 'b' :: 'o' :: 'x' :: ' ' :: (bboxRuns d1 d2 d3 d4 ++ B) := by
    rw [bboxTok, show str "bbox " = 'b' :: 'b' :: 'o' :: 'x' :: [' '] from rfl]
    simp
  have s0 : bboxLastMatch (bboxRuns d1 d2 d3 d4 ++ B) = none := by
    rw [blm_append_no_b B (runs_no_b hd1 hd2 hd3 hd4)]
    exact hBm
  have s1 : bboxLastMatch (' ' :: (bboxRuns d1 d2 d3 d4 ++ B)) = none := by
    rw [blm_cons, s0]
    exact groupAt_cons_ne_b _ (by decide)
  have s2 : bboxLastMatch ('x' :: ' ' :: (bboxRuns d1 d2 d3 d4 ++ B)) = none := by
    rw [blm_cons, s1]
    exact groupAt_cons_ne_b _ (by decide)
  have s3 : bboxLastMatch ('o' :: 'x' :: ' ' :: (bboxRuns d1 d2 d3 d4 ++ B)) = none := by
    rw [blm_cons, s2]
    exact groupAt_cons_ne_b _ (by decide)
  have s4 : bboxLastMatch ('b' :: 'o' :: 'x' :: ' ' :: (bboxRuns d1 d2 d3 d4 ++ B)) = none := by
    rw [blm_cons, s3]
    unfold groupAt
    rw [if_neg]
    intro h
    have h2 : (('b' :: 'o' :: 'x' :: ' ' :: (bboxRuns d1 d2 d3 d4 ++ B)).take 5).get? 1
        = some 'o' := rfl
    rw [h] at h2
    simp only [str] at h2
    exact absurd h2 (by decide)
  rw [e0, blm_cons, s4, ← e0]
  exact groupAt_tok d1 d2 d3 d4 B h1 hd1 h2 hd2 h3 hd3 h4 hd4 hB

/-! ### Lemmas: full node-level bbox extraction -/

theorem takeWhile_ne_newline {s : Str} (h : '\n' ∉ s) :
    s.takeWhile (fun c => c ≠ '\n') = s := by
  rw [List.takeWhile_eq_self_iff]
  intro x hx
  have hxe : x ≠ '\n' := fun he => h (he ▸ hx)
  simpa using hxe

theorem newline_not_mem_tok {d1 d2 d3 d4 : Str}
    (hd1 : ∀ x ∈ d1, x.isDigit = true) (hd2 : ∀ x ∈ d2, x.isDigit = true)
    (hd3 : ∀ x ∈ d3, x.isDigit = true) (hd4 : ∀ x ∈ d4, x.isDigit = true) :
    '\n' ∉ bboxTok d1 d2 d3 d4 := by
  intro h
  unfold bboxTok at h
  rcases List.mem_append.mp h with h | h
  · exact absurd h (by decide)
  · rcases mem_bboxRuns hd1 hd2 hd3 hd4 h with h | h
    · exact absurd h (by decide)
    · exact absurd h (by decide)

theorem pyReMatchBBox_decomp (A d1 d2 d3 d4 B : Str)
    (hA : '\n' ∉ A) (hB : '\n' ∉ B)
    (h1 : d1 ≠ []) (hd1 : ∀ c ∈ d1, c.isDigit = true)
    (h2 : d2 ≠ []) (hd2 : ∀ c ∈ d2, c.isDigit = true)
    (h3 : d3 ≠ []) (hd3 : ∀ c ∈ d3, c.isDigit = true)
    (h4 : d4 ≠ []) (hd4 : ∀ c ∈ d4, c.isDigit = true)
    (hBd : headNotDigit B = true) (hBm : bboxLastMatch B = none) :
    pyReMatchBBox (A ++ (bboxTok d1 d2 d3 d4 ++ B)) = some (bboxTok d1 d2 d3 d4) := by
  unfold pyReMatchBBox
  have hnl : '\n' ∉ A ++ (bboxTok d1 d2 d3 d4 ++ B) := by
    intro hm
    rcases List.mem_append.mp hm with hm | hm
    · exact hA hm
    rcases List.mem_append.mp hm with hm | hm
    · exact newline_not_mem_tok hd1 hd2 hd3 hd4 hm
    · exact hB hm
  rw [takeWhile_ne_newline hnl]
  exact blm_append_some (blm_tok d1 d2 d3 d4 B h1 hd1 h2 hd2 h3 hd3 h4 hd4 hBd hBm) A

theorem space_not_mem_natToStr {n : Nat} : ' ' ∉ natToStr n := by
  intro h
  exact absurd (mem_natToStr_isDigit h) (by decide)

theorem splitOnChar_bboxRuns (d1 d2 d3 d4 : Str)
    (n1 : ' ' ∉ d1) (n2 : ' ' ∉ d2) (n3 : ' ' ∉ d3) (n4 : ' ' ∉ d4) :
    splitOnChar ' ' (bboxRuns d1 d2 d3 d4) = [d1, d2, d3, d4] := by
  unfold bboxRuns
  rw [splitOnChar_append _ n1, splitOnChar_append _ n2, splitOnChar_append _ n3,
    splitOnChar_not_mem n4]

theorem extractNodeBBox_decomp (e : Node) (A B : Str) (x0 y0 x1 y1 : Nat)
    (ht : lookupAttr (str "title") (Node.attrs e)
      = some (A ++ (bboxTok (natToStr x0) (natToStr y0) (natToStr x1) (natToStr y1) ++ B)))
    (hA : '\n' ∉ A) (hB : '\n' ∉ B)
    (hBd : headNotDigit B = true) (hBm : bboxLastMatch B = none) :
    extractNodeBBox e = .ok [x0, y0, x1, y1] := by
  have hd : ∀ n : Nat, ∀ c ∈ natToStr n, c.isDigit = true :=
    fun n c hc => mem_natToStr_isDigit hc
  have hm := pyReMatchBBox_decomp A (natToStr x0) (natToStr y0) (natToStr x1) (natToStr y1) B
    hA hB (natToStr_ne_nil x0) (hd x0) (natToStr_ne_nil y0) (hd y0)
    (natToStr_ne_nil x1) (hd x1) (natToStr_ne_nil y1) (hd y1) hBd hBm
  have hdrop : (bboxTok (natToStr x0) (natToStr y0) (natToStr x1) (natToStr y1)).drop 5
      = bboxRuns (natToStr x0) (natToStr y0) (natToStr x1) (natToStr y1) := by
    rw [bboxTok, drop5_bbox]
  have hsplit := splitOnChar_bboxRuns (natToStr x0) (natToStr y0) (natToStr x1) (natToStr y1)
    space_not_mem_natToStr space_not_mem_natToStr space_not_mem_natToStr space_not_mem_natToStr
  have hints : mapOpt pyInt [natToStr x0, natToStr y0, natToStr x1, natToStr y1]
      = some [x0, y0, x1, y1] := by
    simp [mapOpt, pyInt_natToStr]
  unfold extractNodeBBox
  simp only [ht, hm, hdrop, hsplit, hints]

/-! ### Lemmas: a matched group always parses to four integers -/

theorem parseRun_shape {s : Str} {p : Str × Str} (h : parseRun s = some p) :
    p.1 ≠ [] ∧ ∀ c ∈ p.1, c.isDigit = true := by
  unfold parseRun at h
  split at h
  · exact absurd h (by simp)
  · next hne =>
    cases h
    exact ⟨hne, fun c hc => List.mem_takeWhile_imp hc⟩

theorem parseSpaceRun_shape {r : Str} {p : Str × Str} (h : parseSpaceRun r = some p) :
    p.1 ≠ [] ∧ ∀ c ∈ p.1, c.isDigit = true := by
  unfold parseSpaceRun at h
  split at h
  · exact parseRun_shape h
  · exact absurd h (by simp)

theorem parseRuns4_shape {s runs : Str} (h : parseRuns4 s = some runs) :
    ∃ d1 d2 d3 d4, runs = bboxRuns d1 d2 d3 d4 ∧
      (d1 ≠ [] ∧ ∀ c ∈ d1, c.isDigit = true) ∧
      (d2 ≠ [] ∧ ∀ c ∈ d2, c.isDigit = true) ∧
      (d3 ≠ [] ∧ ∀ c ∈ d3, c.isDigit = true) ∧
      (d4 ≠ [] ∧ ∀ c ∈ d4, c.isDigit = true) := by
  unfold parseRuns4 at h
  cases hr1 : parseRun s with
  | none => rw [hr1] at h; simp at h
  | some p1 =>
    rw [hr1] at h
    simp only [Option.some_bind] at h
    cases hr2 : parseSpaceRun p1.2 with
    | none => rw [hr2] at h; simp at h
    | some p2 =>
      rw [hr2] at h
      simp only [Option.some_bind] at h
      cases hr3 : parseSpaceRun p2.2 with
      | none => rw [hr3] at h; simp at h
      | some p3 =>
        rw [hr3] at h
        simp only [Option.some_bind] at h
        cases hr4 : parseSpaceRun p3.2 with
        | none => rw [hr4] at h; simp at h
        | some p4 =>
          rw [hr4] at h
          simp only [Option.map_some', Option.some.injEq] at h
          refine ⟨p1.1, p2.1, p3.1, p4.1, ?_, parseRun_shape hr1, parseSpaceRun_shape hr2,
            parseSpaceRun_shape hr3, parseSpaceRun_shape hr4⟩
          rw [← h]
          simp [bboxRuns]

theorem blm_some_groupAt : ∀ {s g : Str}, bboxLastMatch s = some g →
    ∃ u, groupAt u = some g := by
  intro s
  induction s with
  | nil => intro g h; exact absurd h (by simp [bboxLastMatch])
  | cons c rest ih =>
    intro g h
    rw [blm_cons] at h
    cases hb : bboxLastMatch rest with
    | some g' =>
      rw [hb] at h
      have hg : g' = g := by injection h
      exact ih (hg ▸ hb)
    | none =>
      rw [hb] at h
      exact ⟨c :: rest, h⟩

theorem pyInt_digit_run {d : Str} (hne : d ≠ []) (hd : ∀ c ∈ d, c.isDigit = true) :
    pyInt d = some (digitsVal d) := by
  unfold pyInt
  rw [if_pos ⟨hne, List.all_eq_true.mpr (fun c hc => hd c hc)⟩]

theorem groupAt_parse {u g : Str} (h : groupAt u = some g) :
    mapOpt pyInt (splitOnChar ' ' (g.drop 5)) =
      some ((splitOnChar ' ' (g.drop 5)).map digitsVal) := by
  unfold groupAt at h
  split at h
  · cases hp : parseRuns4 (u.drop 5) with
    | none => rw [hp] at h; simp at h
    | some runs =>
      rw [hp] at h
      simp only [Option.map_some', Option.some.injEq] at h
      obtain ⟨d1, d2, d3, d4, hruns, s1, s2, s3, s4⟩ := parseRuns4_shape hp
      have hnos : ∀ {d : Str}, (∀ c ∈ d, c.isDigit = true) → ' ' ∉ d := by
        intro d hdig hsp
        exact absurd (hdig ' ' hsp) (by decide)
      have hsplit : splitOnChar ' ' (g.drop 5) = [d1, d2, d3, d4] := by
        rw [← h, drop5_bbox, hruns]
        exact splitOnChar_bboxRuns d1 d2 d3 d4 (hnos s1.2) (hnos s2.2) (hnos s3.2) (hnos s4.2)
      rw [hsplit]
      simp [mapOpt, pyInt_digit_run s1.1 s1.2, pyInt_digit_run s2.1 s2.2,
        pyInt_digit_run s3.1 s3.2, pyInt_digit_run s4.1 s4.2]
  · exact absurd h (by simp)

theorem extractNodeBBox_cases (e : Node)
    (htitle : (lookupAttr (str "title") (Node.attrs e)).isSome = true) :
    (∃ ns, extractNodeBBox e = .ok ns) ∨
      extractNodeBBox e = .error Err.attributeError := by
  unfold extractNodeBBox
  cases hl : lookupAttr (str "title") (Node.attrs e) with
  | none => rw [hl] at htitle; simp at htitle
  | some title =>
    cases hm : pyReMatchBBox title with
    | none =>
      right
      simp only [hm]
    | some g =>
      left
      have hg : bboxLastMatch (title.takeWhile (fun c => c ≠ '\n')) = some g := hm
      obtain ⟨u, hu⟩ := blm_some_groupAt hg
      refine ⟨(splitOnChar ' ' (g.drop 5)).map digitsVal, ?_⟩
      simp only [hm, groupAt_parse hu]

theorem matchNode_title {S : Sel} {n : Node} (h : matchNode S n = true) :
    (lookupAttr (str "title") (Node.attrs n)).isSome = true := by
  unfold matchNode at h
  cases S with
  | allWithTitle => exact h
  | byClass c =>
    rw [Bool.and_eq_true] at h
    exact h.2

theorem xpathAll_title (t : Node) (S : Sel) :
    ∀ n ∈ xpathAll t S, (lookupAttr (str "title") (Node.attrs n)).isSome = true := by
  intro n hn
  exact matchNode_title (List.of_mem_filter hn)

theorem mapE_bbox_error (t : Node) (S : Sel) : ∀ {ns : List Node},
    (∀ n ∈ ns, n ∈ xpathAll t S) →
    (∃ n, n ∈ ns ∧ extractNodeBBox n = .error Err.attributeError) →
    mapE extractNodeBBox ns = .error Err.attributeError := by
  intro ns
  induction ns with
  | nil =>
    intro _ hex
    rcases hex with ⟨n, hn, _⟩
    simp at hn
  | cons a rest ih =>
    intro hall hex
    rw [mapE]
    rcases extractNodeBBox_cases a (xpathAll_title t S a (hall a (List.mem_cons_self a rest)))
      with ⟨bs, hok⟩ | herr
    · rw [hok]
      rcases hex with ⟨n, hn, hbad⟩
      rcases List.mem_cons.mp hn with rfl | hn'
      · rw [hok] at hbad
        exact absurd hbad (by simp)
      · rw [ih (fun x hx => hall x (List.mem_cons_of_mem a hx)) ⟨n, hn', hbad⟩]
    · rw [herr]

theorem mapE_bbox_ok_or_attr (t : Node) (S : Sel) : ∀ {ns : List Node},
    (∀ n ∈ ns, n ∈ xpathAll t S) →
    (∃ bs, mapE extractNodeBBox ns = .ok bs) ∨
      mapE extractNodeBBox ns = .error Err.attributeError := by
  intro ns
  induction ns with
  | nil => intro _; exact Or.inl ⟨[], rfl⟩
  | cons a rest ih =>
    intro hall
    rw [mapE]
    rcases extractNodeBBox_cases a (xpathAll_title t S a (hall a (List.mem_cons_self a rest)))
      with ⟨bs, hok⟩ | herr
    · rw [hok]
      rcases ih (fun x hx => hall x (List.mem_cons_of_mem a hx)) with ⟨bs', hok'⟩ | herr'
      · rw [hok']
        exact Or.inl ⟨bs :: bs', rfl⟩
      · rw [herr']
        exact Or.inr rfl
    · rw [herr]
      exact Or.inr rfl

theorem selBBoxes_ok_or_attr (t : Node) (S : Sel) :
    (∃ bs, selBBoxes t S = .ok (S, bs)) ∨ selBBoxes t S = .error Err.attributeError := by
  unfold selBBoxes
  rcases mapE_bbox_ok_or_attr t S (fun n hn => hn) with ⟨bs, hok⟩ | herr
  · rw [hok]
    exact Or.inl ⟨bs, rfl⟩
  · rw [herr]
    exact Or.inr rfl

theorem mapE_sel_error (t : Node) : ∀ {sels : List Sel},
    (∃ S, S ∈ sels ∧ selBBoxes t S = .error Err.attributeError) →
    mapE (selBBoxes t) sels = .error Err.attributeError := by
  intro sels
  induction sels with
  | nil =>
    intro hex
    rcases hex with ⟨S, hS, _⟩
    simp at hS
  | cons S0 rest ih =>
    intro hex
    rw [mapE]
    rcases selBBoxes_ok_or_attr t S0 with ⟨bs, hok⟩ | herr
    · rw [hok]
      rcases hex with ⟨S, hS, hbad⟩
      rcases List.mem_cons.mp hS with rfl | hS'
      · rw [hok] at hbad
        exact absurd hbad (by simp)
      · rw [ih ⟨S, hS', hbad⟩]
    · rw [herr]

theorem selBBoxes_of_all_ok (t : Node) (S : Sel) (bb : Node → List Nat)
    (h : ∀ n ∈ xpathAll t S, extractNodeBBox n = .ok (bb n)) :
    selBBoxes t S = .ok (S, (xpathAll t S).map bb) := by
  unfold selBBoxes
  rw [mapE_eq_map h]

theorem mapE_singleton_ok {f : α → Except Err β} {a : α} {b : β} (h : f a = .ok b) :
    mapE f [a] = .ok [b] := by
  rw [mapE, h]
  rfl

theorem mapE_pair_inv {f : α → Except Err β} {a1 a2 : α} {b1 b2 : β}
    (h : mapE f [a1, a2] = .ok [b1, b2]) : f a1 = .ok b1 ∧ f a2 = .ok b2 := by
  rw [mapE] at h
  cases h1 : f a1 with
  | error e => rw [h1] at h; simp at h
  | ok c1 =>
    rw [h1] at h
    rw [mapE] at h
    cases h2 : f a2 with
    | error e => rw [h2] at h; simp at h
    | ok c2 =>
      rw [h2] at h
      simp only [mapE] at h
      simp only [Except.ok.injEq, List.cons.injEq, and_true] at h
      rcases h with ⟨hb1, hb2⟩
      subst hb1
      subst hb2
      exact ⟨rfl, rfl⟩

/-! ### More concrete example trees for the geometry extractor -/

/-- A line node whose title embeds a bbox token between other metadata. -/
def geoNode1 : Node :=
  Node.mk (str "p")
    [(str "class", str "ocr_line"), (str "title", str "stuff; bbox 10 20 30 40; more")] [] []

/-- A document holding `geoNode1` (the root carries no title). -/
def docGeo : Node := Node.mk (str "html") [] [] [geoNode1]

/-- The expected bbox of every matched node of `docGeo`. -/
def bbGeo : Node → List Nat := fun _ => [10, 20, 30, 40]

/-- A node whose title has no conforming bbox token. -/
def badGeoNode : Node := Node.mk (str "p") [(str "title", str "x 1 2 3")] [] []

/-- A document holding `badGeoNode`. -/
def docBad : Node := Node.mk (str "html") [] [] [badGeoNode]

/-- A node whose title holds two bbox tokens on one line. -/
def doubleTokNode : Node :=
  Node.mk (str "p") [(str "title", str "bbox 1 2 3 4 and bbox 5 6 7 8")] [] []

/-- A node whose title holds two bbox tokens separated by a newline. -/
def newlineNode : Node :=
  Node.mk (str "p") [(str "title", str "bbox 1 2 3 4" ++ '\n' :: str "bbox 5 6 7 8")] [] []

/-- Nodes of two disjoint classes, both with well-formed titles. -/
def lineNode : Node :=
  Node.mk (str "span") [(str "class", str "ocr_line"), (str "title", str "bbox 1 2 3 4")] [] []

def wordNode : Node :=
  Node.mk (str "span") [(str "class", str "ocr_word"), (str "title", str "bbox 5 6 7 8")] [] []

def docTwo : Node := Node.mk (str "html") [] [] [lineNode, wordNode]

/-! ### Claim C5 -/

/-- C5: for every selector list whose matched nodes all carry a title with a
well-formed bbox token `bbox x0 y0 x1 y1` (possibly surrounded by other
metadata on the same line, with no further token after it), `extract_bboxes`
yields the integer 4-tuple of that token at each node's position, and the
returned mapping sends each selector to the list of tuples of its matched
nodes in document order, in the caller's selector order. -/
theorem extract_bboxes_wellformed (t : Node) (sels : List Sel) (bb : Node → List Nat)
    (h : ∀ S ∈ sels, ∀ n ∈ xpathAll t S, ∃ A B x0 y0 x1 y1,
      lookupAttr (str "title") (Node.attrs n)
        = some (A ++ (bboxTok (natToStr x0) (natToStr y0) (natToStr x1) (natToStr y1) ++ B)) ∧
      '\n' ∉ A ∧ '\n' ∉ B ∧ headNotDigit B = true ∧ bboxLastMatch B = none ∧
      bb n = [x0, y0, x1, y1]) :
    extract_bboxes t sels = .ok (sels.map (fun S => (S, (xpathAll t S).map bb))) := by
  unfold extract_bboxes
  apply mapE_eq_map
  intro S hS
  apply selBBoxes_of_all_ok
  intro n hn
  obtain ⟨A, B, x0, y0, x1, y1, ht, hA, hB, hBd, hBm, hbb⟩ := h S hS n hn
  rw [hbb]
  exact extractNodeBBox_decomp n A B x0 y0 x1 y1 ht hA hB hBd hBm

/-- C5 witness: one `ocr_line` node with title
`"stuff; bbox 10 20 30 40; more"` yields `[10, 20, 30, 40]`. -/
theorem extract_bboxes_wellformed_witness :
    (∀ S ∈ [Sel.byClass (str "ocr_line")], ∀ n ∈ xpathAll docGeo S, ∃ A B x0 y0 x1 y1,
      lookupAttr (str "title") (Node.attrs n)
        = some (A ++ (bboxTok (natToStr x0) (natToStr y0) (natToStr x1) (natToStr y1) ++ B)) ∧
      '\n' ∉ A ∧ '\n' ∉ B ∧ headNotDigit B = true ∧ bboxLastMatch B = none ∧
      bbGeo n = [x0, y0, x1, y1]) ∧
    extract_bboxes docGeo [Sel.byClass (str "ocr_line")]
      = .ok ([Sel.byClass (str "ocr_line")].map
          (fun S => (S, (xpathAll docGeo S).map bbGeo))) := by
  have hall : ∀ S ∈ [Sel.byClass (str "ocr_line")], ∀ n ∈ xpathAll docGeo S,
      ∃ A B x0 y0 x1 y1,
      lookupAttr (str "title") (Node.attrs n)
        = some (A ++ (bboxTok (natToStr x0) (natToStr y0) (natToStr x1) (natToStr y1) ++ B)) ∧
      '\n' ∉ A ∧ '\n' ∉ B ∧ headNotDigit B = true ∧ bboxLastMatch B = none ∧
      bbGeo n = [x0, y0, x1, y1] := by
    intro S hS n hn
    have hSe : S = Sel.byClass (str "ocr_line") := List.mem_singleton.mp hS
    subst hSe
    have hx : xpathAll docGeo (Sel.byClass (str "ocr_line")) = [geoNode1] := rfl
    rw [hx] at hn
    have hne : n = geoNode1 := List.mem_singleton.mp hn
    subst hne
    exact ⟨str "stuff; ", str "; more", 10, 20, 30, 40, by decide, by decide, by decide,
      by decide, by decide, rfl⟩
  exact ⟨hall, extract_bboxes_wellformed docGeo [Sel.byClass (str "ocr_line")] bbGeo hall⟩

/-! ### Claim C8 -/

/-- C8: when `extract_bboxes` over two selectors matching disjoint node sets
returns a mapping, each selector is assigned exactly the list that the
independent single-selector call assigns to it: selectors do not interfere. -/
theorem extract_bboxes_no_interference (t : Node) (S1 S2 : Sel)
    (l1 l2 : List (List Nat))
    (hdisj : ∀ n, n ∈ xpathAll t S1 → n ∉ xpathAll t S2)
    (h : extract_bboxes t [S1, S2] = .ok [(S1, l1), (S2, l2)]) :
    extract_bboxes t [S1] = .ok [(S1, l1)] ∧ extract_bboxes t [S2] = .ok [(S2, l2)] := by
  unfold extract_bboxes at h ⊢
  obtain ⟨h1, h2⟩ := mapE_pair_inv h
  exact ⟨mapE_singleton_ok h1, mapE_singleton_ok h2⟩

/-- C8 witness: `ocr_line` and `ocr_word` selectors over a two-node document. -/
theorem extract_bboxes_no_interference_witness :
    ((∀ n, n ∈ xpathAll docTwo (Sel.byClass (str "ocr_line")) →
        n ∉ xpathAll docTwo (Sel.byClass (str "ocr_word"))) ∧
      extract_bboxes docTwo [Sel.byClass (str "ocr_line"), Sel.byClass (str "ocr_word")]
        = .ok [(Sel.byClass (str "ocr_line"), [[1, 2, 3, 4]]),
            (Sel.byClass (str "ocr_word"), [[5, 6, 7, 8]])]) ∧
    (extract_bboxes docTwo [Sel.byClass (str "ocr_line")]
        = .ok [(Sel.byClass (str "ocr_line"), [[1, 2, 3, 4]])] ∧
      extract_bboxes docTwo [Sel.byClass (str "ocr_word")]
        = .ok [(Sel.byClass (str "ocr_word"), [[5, 6, 7, 8]])]) := by
  have hdisj : ∀ n, n ∈ xpathAll docTwo (Sel.byClass (str "ocr_line")) →
      n ∉ xpathAll docTwo (Sel.byClass (str "ocr_word")) := by
    intro n hn hn2
    have hx1 : xpathAll docTwo (Sel.byClass (str "ocr_line")) = [lineNode] := rfl
    have hx2 : xpathAll docTwo (Sel.byClass (str "ocr_word")) = [wordNode] := rfl
    rw [hx1] at hn
    rw [hx2] at hn2
    have e1 : n = lineNode := List.mem_singleton.mp hn
    have e2 : n = wordNode := List.mem_singleton.mp hn2
    exact absurd (congrArg Node.attrs (e1.symm.trans e2)) (by decide)
  have hcomb : extract_bboxes docTwo [Sel.byClass (str "ocr_line"), Sel.byClass (str "ocr_word")]
      = .ok [(Sel.byClass (str "ocr_line"), [[1, 2, 3, 4]]),
          (Sel.byClass (str "ocr_word"), [[5, 6, 7, 8]])] := by decide
  exact ⟨⟨hdisj, hcomb⟩,
    extract_bboxes_no_interference docTwo (Sel.byClass (str "ocr_line"))
      (Sel.byClass (str "ocr_word")) [[1, 2, 3, 4]] [[5, 6, 7, 8]] hdisj hcomb⟩

/-! ### Claim C3 -/

/-- C3 counterexample: a matched node whose title is `"x 1 2 3"` (no `bbox`
marker) makes `extract_bboxes` fail with a plain `AttributeError` — the
exception raised by calling `.groups()` on the failed (`None`) match — which
carries no node path; the code defines no `MalformedGeometryError`. -/
theorem malformed_title_gives_attributeerror :
    extract_bboxes docBad [Sel.allWithTitle] = .error Err.attributeError := by decide

/-- C3 (amended): whenever some node matched by some selector has a title in
which the bbox pattern finds no match, `extract_bboxes` fails with an
`AttributeError` (never a partial or garbage result and never a silent skip);
the error identifies no node path. -/
theorem extract_bboxes_malformed_raises (t : Node) (sels : List Sel)
    (h : ∃ S, S ∈ sels ∧ ∃ n, n ∈ xpathAll t S ∧ ∃ ti,
      lookupAttr (str "title") (Node.attrs n) = some ti ∧ pyReMatchBBox ti = none) :
    extract_bboxes t sels = .error Err.attributeError := by
  unfold extract_bboxes
  rcases h with ⟨S, hS, n, hn, ti, hti, hmatch⟩
  apply mapE_sel_error
  refine ⟨S, hS, ?_⟩
  have hbad : extractNodeBBox n = .error Err.attributeError := by
    unfold extractNodeBBox
    simp only [hti, hmatch]
  unfold selBBoxes
  rw [mapE_bbox_error t S (fun x hx => hx) ⟨n, hn, hbad⟩]

/-- C3 witness: the failure over `docBad` with the all-titles selector. -/
theorem extract_bboxes_malformed_raises_witness :
    (∃ S, S ∈ [Sel.allWithTitle] ∧ ∃ n, n ∈ xpathAll docBad S ∧ ∃ ti,
      lookupAttr (str "title") (Node.attrs n) = some ti ∧ pyReMatchBBox ti = none) ∧
    extract_bboxes docBad [Sel.allWithTitle] = .error Err.attributeError := by
  have hex : ∃ S, S ∈ [Sel.allWithTitle] ∧ ∃ n, n ∈ xpathAll docBad S ∧ ∃ ti,
      lookupAttr (str "title") (Node.attrs n) = some ti ∧ pyReMatchBBox ti = none :=
    ⟨Sel.allWithTitle, by decide, badGeoNode,
      show badGeoNode ∈ [badGeoNode] from List.mem_singleton.mpr rfl,
      str "x 1 2 3", by decide, by decide⟩
  exact ⟨hex, extract_bboxes_malformed_raises docBad [Sel.allWithTitle] hex⟩

/-! ### Claim C9 -/

/-- C9 (amended): within the newline-free portion of a title, a node with more
than one substring matching the bbox pattern is parsed at the last occurrence
(the leading greedy `.*` consumes up to the final viable match), not the
first; since `.` does not match a newline, the occurrences considered are
those up to the first newline. -/
theorem extract_last_occurrence (e : Node) (A Bm C : Str)
    (x0 y0 x1 y1 u0 v0 u1 v1 : Nat)
    (ht : lookupAttr (str "title") (Node.attrs e)
      = some ((A ++ (bboxTok (natToStr x0) (natToStr y0) (natToStr x1) (natToStr y1) ++ Bm)) ++
          (bboxTok (natToStr u0) (natToStr v0) (natToStr u1) (natToStr v1) ++ C)))
    (hA : '\n' ∉ A) (hBm : '\n' ∉ Bm) (hC : '\n' ∉ C)
    (hCd : headNotDigit C = true) (hCm : bboxLastMatch C = none) :
    extractNodeBBox e = .ok [u0, v0, u1, v1] := by
  apply extractNodeBBox_decomp e
    (A ++ (bboxTok (natToStr x0) (natToStr y0) (natToStr x1) (natToStr y1) ++ Bm)) C
    u0 v0 u1 v1 ht ?_ hC hCd hCm
  intro hm
  rcases List.mem_append.mp hm with hm | hm
  · exact hA hm
  rcases List.mem_append.mp hm with hm | hm
  · exact newline_not_mem_tok (fun c hc => mem_natToStr_isDigit hc)
      (fun c hc => mem_natToStr_isDigit hc) (fun c hc => mem_natToStr_isDigit hc)
      (fun c hc => mem_natToStr_isDigit hc) hm
  · exact hBm hm

/-- C9 witness: with `"bbox 1 2 3 4 and bbox 5 6 7 8"` on one line the second
(last) token wins. -/
theorem extract_last_occurrence_witness :
    (lookupAttr (str "title") (Node.attrs doubleTokNode)
      = some (([] ++ (bboxTok (natToStr 1) (natToStr 2) (natToStr 3) (natToStr 4) ++ str " and ")) ++
          (bboxTok (natToStr 5) (natToStr 6) (natToStr 7) (natToStr 8) ++ [])) ∧
      ([1, 2, 3, 4] : List Nat) ≠ [5, 6, 7, 8]) ∧
    extractNodeBBox doubleTokNode = .ok [5, 6, 7, 8] :=
  ⟨⟨by decide, by decide⟩,
    extract_last_occurrence doubleTokNode [] (str " and ") [] 1 2 3 4 5 6 7 8
      (by decide) (by decide) (by decide) (by decide) (by decide) (by decide)⟩

/-- C9 counterexample: with a newline between two tokens the code returns the
occurrence before the newline, not the last occurrence in the title string —
`.` does not match newline, so the claim as stated fails. -/
theorem last_occurrence_fails_across_newline :
    extractNodeBBox newlineNode = .ok [1, 2, 3, 4] ∧
    groupAt (str "bbox 5 6 7 8") = some (str "bbox 5 6 7 8") ∧
    ([1, 2, 3, 4] : List Nat) ≠ [5, 6, 7, 8] := ⟨by decide, by decide, by decide⟩
